import Mathlib

/-!
Verification of the libuspin core (src/src/libuspin/main.go): the spec
loader `NewImageSpec` and the operation dispatcher `ApplyOperations`.

The two functions are embedded shallowly.  Their collaborators — the
configuration parser `config.New`, the path helpers from `path/filepath`,
the package-list parser from `libuspin/spec`, and the package manager
`pkg.Manager` — are not part of the sources and are treated, as the spec
does, as black boxes: they appear as function-valued parameters, and every
call the embedded code makes to one of them is recorded in an explicit
trace so that claims about which collaborator calls happen (and in which
order) are statable.
-/

namespace USpin

/-- Error values.  `notEnoughOps` embeds `ErrNotEnoughOps`, `unknownOperation`
embeds `ErrUnknownOperation`, `invalidInput path` embeds the
`fmt.Errorf("Not a .spin file: %v", spinFile)` value, and `mgr s` stands for
an arbitrary error produced by a collaborator. -/
inductive Err where
  | notEnoughOps
  | unknownOperation
  | invalidInput (path : String)
  | mgr (msg : String)
  deriving DecidableEq, Repr

/-- Modelled from the spec: `spec.Operation` is a tagged variant over
RepoOp{name, uri}, GroupOp{group name, ignore-safety flag} and
PackageOp{package name, ignore-safety flag} (the `libuspin/spec` package is
not among the sources).  `opOther` stands for any other implementer of the
interface, the ones reaching the `default` branch of the dispatcher. -/
inductive Operation where
  | opRepo (repoName repoURI : String)
  | opGroup (groupName : String) (ignoreSafety : Bool)
  | opPackage (name : String) (ignoreSafety : Bool)
  | opOther (tag : String)
  deriving DecidableEq, Repr

/-- The variant tag of an operation, as inspected by the type switch. -/
inductive OpKind where
  | repo
  | group
  | pkg
  | other
  deriving DecidableEq, Repr

def Operation.kind : Operation → OpKind
  | .opRepo _ _ => .repo
  | .opGroup _ _ => .group
  | .opPackage _ _ => .pkg
  | .opOther _ => .other

def Operation.isRepo : Operation → Bool
  | .opRepo _ _ => true
  | _ => false

def Operation.isGroup : Operation → Bool
  | .opGroup _ _ => true
  | _ => false

def Operation.isPackage : Operation → Bool
  | .opPackage _ _ => true
  | _ => false

/-- One call made against the package manager, recorded in the trace. -/
inductive ManagerCall where
  | addRepo (name uri : String)
  | installGroups (ignoreSafety : Bool) (names : List String)
  | installPackages (ignoreSafety : Bool) (names : List String)
  deriving DecidableEq, Repr

def ManagerCall.isAddRepo : ManagerCall → Bool
  | .addRepo _ _ => true
  | _ => false

/-- Modelled from the spec: the `pkg.Manager` collaborator (the
`libosdev/pkg` package is not among the sources).  Each method returns
`none` for a nil error and `some e` for the error it reports. -/
structure Manager where
  addRepo : String → String → Option Err
  installGroups : Bool → List String → Option Err
  installPackages : Bool → List String → Option Err

/-- How a call to `ApplyOperations` can end: returning nil, returning an
error value, or panicking on a failed interface cast. -/
inductive Outcome where
  | ok
  | err (e : Err)
  | panicked
  deriving DecidableEq, Repr

/-- A Go `error` return value mapped onto an `Outcome`. -/
def outcomeOf : Option Err → Outcome
  | none => Outcome.ok
  | some e => Outcome.err e

/-- The `case *spec.OpRepo` loop of `ApplyOperations`: each element is cast
to `*spec.OpRepo` (a non-repo element makes the cast panic, after the calls
already made), then `manager.AddRepo(repo.RepoName, repo.RepoURI)` is
called; the first error aborts the loop. -/
def applyRepos (manager : Manager) : List Operation → List ManagerCall × Outcome
  | [] => ([], Outcome.ok)
  | Operation.opRepo name uri :: rest =>
    match manager.addRepo name uri with
    | some e => ([ManagerCall.addRepo name uri], Outcome.err e)
    | none =>
      let r := applyRepos manager rest
      (ManagerCall.addRepo name uri :: r.1, r.2)
  | _ => ([], Outcome.panicked)

/-- The name-collecting loop of the `case *spec.OpGroup` branch: every
element is cast to `*spec.OpGroup` and its `GroupName` appended; a non-group
element makes the cast panic (`none`), before any manager call. -/
def collectGroupNames : List Operation → Option (List String)
  | [] => some []
  | Operation.opGroup g _ :: rest => (collectGroupNames rest).map (fun ns => g :: ns)
  | _ => none

/-- The name-collecting loop of the `case *spec.OpPackage` branch. -/
def collectPackageNames : List Operation → Option (List String)
  | [] => some []
  | Operation.opPackage p _ :: rest => (collectPackageNames rest).map (fun ns => p :: ns)
  | _ => none

/-- `ApplyOperations(manager, ops)`.  Empty input returns `ErrNotEnoughOps`;
otherwise the type switch on `ops[0]` picks the branch: repos are added one
at a time, groups and packages are batched into a single install call whose
ignore-safety flag is read from the first element.  The first component of
the result is the ordered trace of manager calls made. -/
def ApplyOperations (manager : Manager) (ops : List Operation) :
    List ManagerCall × Outcome :=
  match ops with
  | [] => ([], Outcome.err Err.notEnoughOps)
  | Operation.opRepo n u :: rest =>
    applyRepos manager (Operation.opRepo n u :: rest)
  | Operation.opGroup g ig :: rest =>
    match collectGroupNames (Operation.opGroup g ig :: rest) with
    | none => ([], Outcome.panicked)
    | some names =>
      ([ManagerCall.installGroups ig names], outcomeOf (manager.installGroups ig names))
  | Operation.opPackage p ig :: rest =>
    match collectPackageNames (Operation.opPackage p ig :: rest) with
    | none => ([], Outcome.panicked)
    | some names =>
      ([ManagerCall.installPackages ig names], outcomeOf (manager.installPackages ig names))
  | Operation.opOther _ :: _ => ([], Outcome.err Err.unknownOperation)

/-- Modelled from the spec: `config.ImageConfiguration` (the
`libuspin/config` package is not among the sources) carries the declared
package-list relative filename, `conf.Image.Packages` in the source. -/
structure ImageConfiguration where
  packages : String
  deriving DecidableEq, Repr

/-- The `ImageSpec` struct of the source: the parsed operation stack, the
configuration, and `BaseDir`, documented as used to join filename paths
relative to the .spin file. -/
structure ImageSpec where
  stack : List Operation
  config : ImageConfiguration
  baseDir : String
  deriving DecidableEq, Repr

/-- One collaborator call made by the loader, recorded in the trace. -/
inductive LoaderCall where
  | configNew (path : String)
  | absDir (path : String)
  | parsePackages (path : String)
  deriving DecidableEq, Repr

/-- Modelled from the spec: the loader collaborators, treated as black
boxes.  `configNew` is `config.New`, `absPath` is `filepath.Abs`, `dirOf`
is `filepath.Dir` (pure, never fails), `joinPath` is `filepath.Join`, and
`parseStack` is the package-list parser (`spec.NewParser().Parse`, its
resulting `Stack` read out). -/
structure LoaderEnv where
  configNew : String → Except Err ImageConfiguration
  absPath : String → Except Err String
  dirOf : String → String
  joinPath : String → String → String
  parseStack : String → Except Err (List Operation)

/-- `strings.HasSuffix(s, suffix)` as a test on the character lists; for Go
this is a byte-level test, but since UTF-8 is self-synchronizing a valid
string is a byte-level suffix exactly when it is a character-level one. -/
def hasSuffix (s suffix : String) : Bool :=
  suffix.data.isSuffixOf s.data

/-- `NewImageSpec(spinFile)`.  Rejects paths without the `.spin` suffix,
then calls `config.New`, resolves the absolute directory of the input, and
parses the package list at the joined path; each collaborator error is
returned as-is.  On success the source returns a fresh literal
`&ImageSpec{Stack: parser.Stack, Config: conf}` in which the `BaseDir`
field is left at its zero value, the empty string (the locally computed
`is.BaseDir` is discarded); the embedding mirrors that with
`baseDir := ""`.  The first component is the ordered trace of collaborator
calls made. -/
def NewImageSpec (env : LoaderEnv) (spinFile : String) :
    List LoaderCall × Except Err ImageSpec :=
  if hasSuffix spinFile ".spin" = true then
    match env.configNew spinFile with
    | Except.error e => ([LoaderCall.configNew spinFile], Except.error e)
    | Except.ok conf =>
      match env.absPath (env.dirOf spinFile) with
      | Except.error e =>
        ([LoaderCall.configNew spinFile, LoaderCall.absDir (env.dirOf spinFile)],
         Except.error e)
      | Except.ok baseDir =>
        match env.parseStack (env.joinPath baseDir conf.packages) with
        | Except.error e =>
          ([LoaderCall.configNew spinFile, LoaderCall.absDir (env.dirOf spinFile),
            LoaderCall.parsePackages (env.joinPath baseDir conf.packages)],
           Except.error e)
        | Except.ok stack =>
          ([LoaderCall.configNew spinFile, LoaderCall.absDir (env.dirOf spinFile),
            LoaderCall.parsePackages (env.joinPath baseDir conf.packages)],
           Except.ok { stack := stack, config := conf, baseDir := "" })
  else
    ([], Except.error (Err.invalidInput spinFile))

/-- A manager whose every call succeeds; used for concrete evaluations. -/
def okManager : Manager where
  addRepo := fun _ _ => none
  installGroups := fun _ _ => none
  installPackages := fun _ _ => none

/-- A small concrete stack for concrete loader evaluations. -/
def demoStack : List Operation :=
  [Operation.opPackage "p" false]

/-- A loader environment with concrete, everywhere-succeeding
collaborators; the directory of the demo input is `/work`. -/
def demoEnv : LoaderEnv where
  configNew := fun _ => Except.ok { packages := "pkgs.txt" }
  absPath := fun p => Except.ok p
  dirOf := fun _ => "/work"
  joinPath := fun a b => a ++ "/" ++ b
  parseStack := fun _ => Except.ok demoStack

/-- A loader environment whose configuration parser always fails. -/
def failEnv : LoaderEnv where
  configNew := fun _ => Except.error (Err.mgr "boom")
  absPath := fun p => Except.ok p
  dirOf := fun _ => "/work"
  joinPath := fun a b => a ++ "/" ++ b
  parseStack := fun _ => Except.ok demoStack

/-- The add-repository call an all-repo operation list gives rise to, one
per element, in list order, with the element's own name and URI. -/
def repoCalls : List Operation → List ManagerCall
  | [] => []
  | Operation.opRepo n u :: rest => ManagerCall.addRepo n u :: repoCalls rest
  | _ :: rest => repoCalls rest

/-- Every element's group name, in list order. -/
def groupNames : List Operation → List String
  | [] => []
  | Operation.opGroup g _ :: rest => g :: groupNames rest
  | _ :: rest => groupNames rest

/-- Every element's package name, in list order. -/
def pkgNames : List Operation → List String
  | [] => []
  | Operation.opPackage p _ :: rest => p :: pkgNames rest
  | _ :: rest => pkgNames rest

/-- A manager-call trace of a single kind: either only add-repository
calls (possibly none), or exactly one install-groups call, or exactly one
install-packages call. -/
def oneKindOnly (calls : List ManagerCall) : Bool :=
  match calls with
  | [ManagerCall.installGroups _ _] => true
  | [ManagerCall.installPackages _ _] => true
  | _ => calls.all ManagerCall.isAddRepo

theorem applyRepos_calls_addRepo (m : Manager) :
    ∀ ops : List Operation, ∀ c ∈ (applyRepos m ops).1, c.isAddRepo = true := by
  intro ops
  induction ops with
  | nil => intro c hc; simp [applyRepos] at hc
  | cons op rest ih =>
    intro c hc
    cases op with
    | opRepo n u =>
      cases h : m.addRepo n u with
      | some e =>
        simp [applyRepos, h] at hc
        subst hc; rfl
      | none =>
        simp [applyRepos, h] at hc
        rcases hc with hc | hc
        · subst hc; rfl
        · exact ih c hc
    | opGroup g ig => simp [applyRepos] at hc
    | opPackage p ig => simp [applyRepos] at hc
    | opOther t => simp [applyRepos] at hc

theorem applyRepos_no_panic (m : Manager) :
    ∀ ops : List Operation, (∀ op ∈ ops, op.isRepo = true) →
      (applyRepos m ops).2 ≠ Outcome.panicked := by
  intro ops
  induction ops with
  | nil => intro _; simp [applyRepos]
  | cons op rest ih =>
    intro h
    have hop := h op (List.mem_cons_self op rest)
    cases op with
    | opRepo n u =>
      cases hm : m.addRepo n u with
      | some e => simp [applyRepos, hm]
      | none =>
        have hr := ih (fun x hx => h x (List.mem_cons_of_mem _ hx))
        simpa [applyRepos, hm] using hr
    | opGroup g ig => simp [Operation.isRepo] at hop
    | opPackage p ig => simp [Operation.isRepo] at hop
    | opOther t => simp [Operation.isRepo] at hop

theorem collectGroupNames_eq :
    ∀ ops : List Operation, (∀ op ∈ ops, op.isGroup = true) →
      collectGroupNames ops = some (groupNames ops) := by
  intro ops
  induction ops with
  | nil => intro _; rfl
  | cons op rest ih =>
    intro h
    have hop := h op (List.mem_cons_self op rest)
    cases op with
    | opGroup g ig =>
      have hr := ih (fun x hx => h x (List.mem_cons_of_mem _ hx))
      simp [collectGroupNames, groupNames, hr]
    | opRepo n u => simp [Operation.isGroup] at hop
    | opPackage p ig => simp [Operation.isGroup] at hop
    | opOther t => simp [Operation.isGroup] at hop

theorem collectPackageNames_eq :
    ∀ ops : List Operation, (∀ op ∈ ops, op.isPackage = true) →
      collectPackageNames ops = some (pkgNames ops) := by
  intro ops
  induction ops with
  | nil => intro _; rfl
  | cons op rest ih =>
    intro h
    have hop := h op (List.mem_cons_self op rest)
    cases op with
    | opPackage p ig =>
      have hr := ih (fun x hx => h x (List.mem_cons_of_mem _ hx))
      simp [collectPackageNames, pkgNames, hr]
    | opRepo n u => simp [Operation.isPackage] at hop
    | opGroup g ig => simp [Operation.isPackage] at hop
    | opOther t => simp [Operation.isPackage] at hop

theorem applyRepos_ok (m : Manager) :
    ∀ ops : List Operation, (∀ op ∈ ops, op.isRepo = true) →
      (∀ n u, Operation.opRepo n u ∈ ops → m.addRepo n u = none) →
      applyRepos m ops = (repoCalls ops, Outcome.ok) := by
  intro ops
  induction ops with
  | nil => intro _ _; rfl
  | cons op rest ih =>
    intro h hall
    have hop := h op (List.mem_cons_self op rest)
    cases op with
    | opRepo n u =>
      have hn : m.addRepo n u = none :=
        hall n u (List.mem_cons_self _ _)
      have hr := ih (fun x hx => h x (List.mem_cons_of_mem _ hx))
        (fun a b hab => hall a b (List.mem_cons_of_mem _ hab))
      simp [applyRepos, repoCalls, hn, hr]
    | opGroup g ig => simp [Operation.isRepo] at hop
    | opPackage p ig => simp [Operation.isRepo] at hop
    | opOther t => simp [Operation.isRepo] at hop

theorem applyRepos_err (m : Manager) :
    ∀ (pre : List Operation) (n u : String) (post : List Operation) (e : Err),
      (∀ op ∈ pre, op.isRepo = true) →
      (∀ a b, Operation.opRepo a b ∈ pre → m.addRepo a b = none) →
      m.addRepo n u = some e →
      applyRepos m (pre ++ Operation.opRepo n u :: post) =
        (repoCalls pre ++ [ManagerCall.addRepo n u], Outcome.err e) := by
  intro pre
  induction pre with
  | nil =>
    intro n u post e _ _ hf
    simp [applyRepos, repoCalls, hf]
  | cons op pre ih =>
    intro n u post e hrep hok hf
    have hop := hrep op (List.mem_cons_self op pre)
    cases op with
    | opRepo a b =>
      have ha : m.addRepo a b = none :=
        hok a b (List.mem_cons_self _ _)
      have hr := ih n u post e (fun x hx => hrep x (List.mem_cons_of_mem _ hx))
        (fun x y hxy => hok x y (List.mem_cons_of_mem _ hxy)) hf
      simp [applyRepos, repoCalls, ha, hr]
    | opGroup g ig => simp [Operation.isRepo] at hop
    | opPackage p ig => simp [Operation.isRepo] at hop
    | opOther t => simp [Operation.isRepo] at hop

theorem ApplyOperations_eq_applyRepos (m : Manager) (ops : List Operation)
    (hne : ops ≠ []) (hrep : ∀ op ∈ ops, op.isRepo = true) :
    ApplyOperations m ops = applyRepos m ops := by
  cases ops with
  | nil => exact absurd rfl hne
  | cons first rest =>
    have h1 := hrep first (List.mem_cons_self first rest)
    cases first with
    | opRepo n u => rfl
    | opGroup g ig => simp [Operation.isRepo] at h1
    | opPackage p ig => simp [Operation.isRepo] at h1
    | opOther t => simp [Operation.isRepo] at h1

theorem oneKindOnly_of_all_addRepo (calls : List ManagerCall)
    (h : calls.all ManagerCall.isAddRepo = true) : oneKindOnly calls = true := by
  unfold oneKindOnly
  split
  · rfl
  · rfl
  · exact h

/-- C1: on a well-formed input the loader passes the joined path
(absolute base directory joined with the configuration's packages filename)
to the package-list parser, yet the ImageSpec it returns carries an empty
base-directory field instead of the resolved absolute directory, so
re-joining the returned field with the packages filename does not
reproduce the loader's own joined path: the source discards the computed
`is.BaseDir` when it builds the returned struct literal. -/
theorem C1_baseDir_dropped :
    NewImageSpec demoEnv "/work/img.spin" =
      ([LoaderCall.configNew "/work/img.spin", LoaderCall.absDir "/work",
        LoaderCall.parsePackages "/work/pkgs.txt"],
       Except.ok { stack := demoStack, config := { packages := "pkgs.txt" },
                   baseDir := "" }) ∧
    demoEnv.absPath (demoEnv.dirOf "/work/img.spin") = Except.ok "/work" ∧
    demoEnv.joinPath "" "pkgs.txt" ≠ demoEnv.joinPath "/work" "pkgs.txt" :=
  ⟨rfl, rfl, by decide⟩

/-- C2 counterexample: on the list `[RepoOp("a","u1"), GroupOp("g",true)]`,
whose first element is a RepoOp, a manager whose calls all succeed receives
only one add-repository call — not one per list element — and the dispatch
ends in a panic (failed cast), so the claim as stated fails. -/
theorem C2_mixed_list_counterexample :
    (ApplyOperations okManager
        [Operation.opRepo "a" "u1", Operation.opGroup "g" true]).1 =
      [ManagerCall.addRepo "a" "u1"] ∧
    (ApplyOperations okManager
        [Operation.opRepo "a" "u1", Operation.opGroup "g" true]).2 =
      Outcome.panicked ∧
    [ManagerCall.addRepo "a" "u1"].length ≠ 2 := by
  decide

/-- C2 (amended): for every non-empty operation list all of whose elements
are RepoOps, the dispatcher calls add-repository exactly once per element,
in list order with each element's own name and URI, and returns nil when
every call succeeds; if a call errors, the error is returned immediately
and no add-repository call is made for any later element. -/
theorem C2_repo_batch (manager : Manager) (ops : List Operation)
    (hne : ops ≠ []) (hrep : ∀ op ∈ ops, op.isRepo = true) :
    ((∀ n u, Operation.opRepo n u ∈ ops → manager.addRepo n u = none) →
      ApplyOperations manager ops = (repoCalls ops, Outcome.ok)) ∧
    (∀ pre n u post e, ops = pre ++ Operation.opRepo n u :: post →
      (∀ a b, Operation.opRepo a b ∈ pre → manager.addRepo a b = none) →
      manager.addRepo n u = some e →
      ApplyOperations manager ops =
        (repoCalls pre ++ [ManagerCall.addRepo n u], Outcome.err e)) := by
  constructor
  · intro hall
    rw [ApplyOperations_eq_applyRepos manager ops hne hrep]
    exact applyRepos_ok manager ops hrep hall
  · intro pre n u post e heq hok hf
    rw [ApplyOperations_eq_applyRepos manager ops hne hrep, heq]
    exact applyRepos_err manager pre n u post e
      (fun op hop => hrep op (by rw [heq]; exact List.mem_append_left _ hop))
      hok hf

/-- C2 witness: the amended claim at `[RepoOp("a","u1"), RepoOp("b","u2")]`
with an always-succeeding manager: two add-repository calls, in order. -/
theorem C2_repo_batch_witness :
    ApplyOperations okManager
        [Operation.opRepo "a" "u1", Operation.opRepo "b" "u2"] =
      ([ManagerCall.addRepo "a" "u1", ManagerCall.addRepo "b" "u2"],
       Outcome.ok) :=
  (C2_repo_batch okManager [Operation.opRepo "a" "u1", Operation.opRepo "b" "u2"]
    (by decide) (by decide)).1 (fun _ _ _ => rfl)

/-- C3: on a non-empty all-GroupOp list the dispatcher makes exactly one
install-groups call, passing the ignore-safety flag of the first element
only together with every element's group name in list order, and returns
that call's result. -/
theorem C3_group_batch (manager : Manager) (g : String) (ig : Bool)
    (rest : List Operation) (hgrp : ∀ op ∈ rest, op.isGroup = true) :
    ApplyOperations manager (Operation.opGroup g ig :: rest) =
      ([ManagerCall.installGroups ig (groupNames (Operation.opGroup g ig :: rest))],
       outcomeOf (manager.installGroups ig
         (groupNames (Operation.opGroup g ig :: rest)))) := by
  have h : ∀ op ∈ Operation.opGroup g ig :: rest, op.isGroup = true := by
    intro op hop
    rcases List.mem_cons.mp hop with h | h
    · subst h; rfl
    · exact hgrp op h
  have hc := collectGroupNames_eq (Operation.opGroup g ig :: rest) h
  simp [ApplyOperations, hc]

/-- C3 witness: `[GroupOp("g1",true), GroupOp("g2",true)]` yields the single
call `installGroups(true, ["g1","g2"])`, succeeding. -/
theorem C3_group_batch_witness :
    ApplyOperations okManager
        [Operation.opGroup "g1" true, Operation.opGroup "g2" true] =
      ([ManagerCall.installGroups true ["g1", "g2"]], Outcome.ok) :=
  C3_group_batch okManager "g1" true [Operation.opGroup "g2" true] (by decide)

/-- C4: on a non-empty all-PackageOp list the dispatcher makes exactly one
install-packages call, passing the ignore-safety flag of the first element
only together with every element's package name in list order, and returns
that call's result. -/
theorem C4_package_batch (manager : Manager) (p : String) (ig : Bool)
    (rest : List Operation) (hpkg : ∀ op ∈ rest, op.isPackage = true) :
    ApplyOperations manager (Operation.opPackage p ig :: rest) =
      ([ManagerCall.installPackages ig (pkgNames (Operation.opPackage p ig :: rest))],
       outcomeOf (manager.installPackages ig
         (pkgNames (Operation.opPackage p ig :: rest)))) := by
  have h : ∀ op ∈ Operation.opPackage p ig :: rest, op.isPackage = true := by
    intro op hop
    rcases List.mem_cons.mp hop with h | h
    · subst h; rfl
    · exact hpkg op h
  have hc := collectPackageNames_eq (Operation.opPackage p ig :: rest) h
  simp [ApplyOperations, hc]

/-- C4 witness: `[PackageOp("p1",false), PackageOp("p2",false)]` yields the
single call `installPackages(false, ["p1","p2"])`, succeeding. -/
theorem C4_package_batch_witness :
    ApplyOperations okManager
        [Operation.opPackage "p1" false, Operation.opPackage "p2" false] =
      ([ManagerCall.installPackages false ["p1", "p2"]], Outcome.ok) :=
  C4_package_batch okManager "p1" false [Operation.opPackage "p2" false]
    (by decide)

/-- C5: when the first element of a non-empty list is neither a RepoOp nor
a GroupOp nor a PackageOp, the dispatcher returns the unknown-operation
error and makes no manager call at all. -/
theorem C5_unknown_kind (manager : Manager) (first : Operation)
    (rest : List Operation) (h1 : first.isRepo = false)
    (h2 : first.isGroup = false) (h3 : first.isPackage = false) :
    ApplyOperations manager (first :: rest) =
      ([], Outcome.err Err.unknownOperation) := by
  cases first with
  | opRepo n u => simp [Operation.isRepo] at h1
  | opGroup g ig => simp [Operation.isGroup] at h2
  | opPackage p ig => simp [Operation.isPackage] at h3
  | opOther t => rfl

/-- C5 witness: a list headed by an unrecognized variant fails with the
unknown-operation error, with an empty call trace. -/
theorem C5_unknown_kind_witness :
    ApplyOperations okManager [Operation.opOther "weird"] =
      ([], Outcome.err Err.unknownOperation) :=
  C5_unknown_kind okManager (Operation.opOther "weird") [] rfl rfl rfl

/-- C6: for every manager, dispatching the empty operation list fails with
the not-enough-operations error and makes no manager call. -/
theorem C6_empty_ops (manager : Manager) :
    ApplyOperations manager [] = ([], Outcome.err Err.notEnoughOps) := rfl

/-- C7: for every path lacking the `.spin` suffix, the loader fails with an
invalid-input error naming that path and calls none of its collaborators
(no configuration parse, no path resolution, no package-list parse). -/
theorem C7_bad_suffix (env : LoaderEnv) (path : String)
    (h : hasSuffix path ".spin" = false) :
    NewImageSpec env path = ([], Except.error (Err.invalidInput path)) := by
  simp [NewImageSpec, h]

/-- C7 witness: loading `image.txt` fails with the invalid-input error and
an empty collaborator trace. -/
theorem C7_bad_suffix_witness :
    NewImageSpec demoEnv "image.txt" =
      ([], Except.error (Err.invalidInput "image.txt")) :=
  C7_bad_suffix demoEnv "image.txt" (by decide)

/-- C8: whichever loader collaborator fails first — the configuration
parser, the base-directory resolution, or the package-list parser — the
loader returns that collaborator's error value unchanged and no
ImageSpec. -/
theorem C8_error_propagation (env : LoaderEnv) (path : String) (e : Err)
    (hsuf : hasSuffix path ".spin" = true)
    (hfail : env.configNew path = Except.error e
      ∨ (∃ conf, env.configNew path = Except.ok conf
          ∧ env.absPath (env.dirOf path) = Except.error e)
      ∨ (∃ conf baseDir, env.configNew path = Except.ok conf
          ∧ env.absPath (env.dirOf path) = Except.ok baseDir
          ∧ env.parseStack (env.joinPath baseDir conf.packages) =
              Except.error e)) :
    (NewImageSpec env path).2 = Except.error e := by
  rcases hfail with h | ⟨conf, hc, h⟩ | ⟨conf, baseDir, hc, hb, h⟩
  · simp [NewImageSpec, hsuf, h]
  · simp [NewImageSpec, hsuf, hc, h]
  · simp [NewImageSpec, hsuf, hc, hb, h]

/-- C8 witness: with a configuration parser failing with a specific error,
loading a `.spin` path returns exactly that error. -/
theorem C8_error_propagation_witness :
    (NewImageSpec failEnv "a.spin").2 = Except.error (Err.mgr "boom") :=
  C8_error_propagation failEnv "a.spin" (Err.mgr "boom") (by decide)
    (Or.inl rfl)

/-- C9: on a non-empty list whose every element has the first element's
variant kind, no cast in the dispatcher can fail: the panic outcome is
unreachable, for every manager. -/
theorem C9_homogeneous_no_panic (manager : Manager) (first : Operation)
    (rest : List Operation)
    (hhom : ∀ op ∈ first :: rest, op.kind = first.kind) :
    (ApplyOperations manager (first :: rest)).2 ≠ Outcome.panicked := by
  cases first with
  | opRepo n u =>
    have hrep : ∀ op ∈ Operation.opRepo n u :: rest, op.isRepo = true := by
      intro op hop
      have hk := hhom op hop
      cases op <;> simp [Operation.kind, Operation.isRepo, Operation.isGroup, Operation.isPackage] at hk ⊢
    rw [ApplyOperations_eq_applyRepos manager _ (List.cons_ne_nil _ _) hrep]
    exact applyRepos_no_panic manager _ hrep
  | opGroup g ig =>
    have hgrp : ∀ op ∈ Operation.opGroup g ig :: rest, op.isGroup = true := by
      intro op hop
      have hk := hhom op hop
      cases op <;> simp [Operation.kind, Operation.isRepo, Operation.isGroup, Operation.isPackage] at hk ⊢
    have hc := collectGroupNames_eq _ hgrp
    simp only [ApplyOperations, hc]
    cases manager.installGroups ig (groupNames (Operation.opGroup g ig :: rest)) <;>
      simp [outcomeOf]
  | opPackage p ig =>
    have hpkg : ∀ op ∈ Operation.opPackage p ig :: rest, op.isPackage = true := by
      intro op hop
      have hk := hhom op hop
      cases op <;> simp [Operation.kind, Operation.isRepo, Operation.isGroup, Operation.isPackage] at hk ⊢
    have hc := collectPackageNames_eq _ hpkg
    simp only [ApplyOperations, hc]
    cases manager.installPackages ig (pkgNames (Operation.opPackage p ig :: rest)) <;>
      simp [outcomeOf]
  | opOther t => simp [ApplyOperations]

/-- C9 witness: a homogeneous two-element repo list never panics. -/
theorem C9_homogeneous_no_panic_witness :
    (ApplyOperations okManager
        [Operation.opRepo "a" "u", Operation.opRepo "b" "v"]).2 ≠
      Outcome.panicked :=
  C9_homogeneous_no_panic okManager (Operation.opRepo "a" "u")
    [Operation.opRepo "b" "v"] (by decide)

/-- C10: for every manager and every operation list, the trace of manager
calls a single dispatch makes is of one kind only: either all
add-repository calls (possibly none), or exactly one install-groups call,
or exactly one install-packages call. -/
theorem C10_one_kind_of_call (manager : Manager) (ops : List Operation) :
    oneKindOnly (ApplyOperations manager ops).1 = true := by
  cases ops with
  | nil => rfl
  | cons first rest =>
    cases first with
    | opRepo n u =>
      have h : ((applyRepos manager (Operation.opRepo n u :: rest)).1).all
          ManagerCall.isAddRepo = true :=
        List.all_eq_true.mpr
          (applyRepos_calls_addRepo manager (Operation.opRepo n u :: rest))
      exact oneKindOnly_of_all_addRepo _ h
    | opGroup g ig =>
      simp only [ApplyOperations]
      cases collectGroupNames (Operation.opGroup g ig :: rest) with
      | none => rfl
      | some names => rfl
    | opPackage p ig =>
      simp only [ApplyOperations]
      cases collectPackageNames (Operation.opPackage p ig :: rest) with
      | none => rfl
      | some names => rfl
    | opOther t => rfl

end USpin
